import Mathlib

/-!
Shallow embedding of the `httptester` Go package (vaeryn-uk/go-httptester).

The embedding translates the repository's source files:
  * `json.go` (src/unnamed/part_000): `JsonContainsStr`, `JsonContains`,
    `DataContains`, `JsonNotContains`, `MustParseJson`;
  * `assert.go`: `must`, `fatal`, `equals`, `format`;
  * `httptester.go` (src/unnamed/part_003): `New`, `Request`, the request
    options (`Header`, `Bearer`, `JsonBody`, `MultipartFormField`,
    `MultipartFormFile`), the response expectations, `finalise`,
    `MaxReqRespOutput` and `Test`.

External collaborators (the Go standard library and third-party packages) are
modelled by explicit Lean functions, each marked in its doc comment:
`encoding/json` (a JSON parser and an indented serializer), the
`PaesslerAG/gval` + `jsonpath` evaluator (a step-list path model), `fmt`
(`Sprintf` restricted to the string verbs, `%v` rendering of decoded values),
`net/http` header canonicalization, `net/textproto` token characters,
`net/url` parsing, `mime/multipart` encoding and `net/http/httputil` dumps.

Failure reporting through `testing.TB.Fatal` is modelled with
`Except String`: `.error msg` is a fatal test failure carrying the message
that `fatal` in `assert.go` would build, and functions that Go cuts short by
`t.Fatal` return that error.
-/

namespace Httptester

/-- JSON values as decoded by `encoding/json` into `any`: `null`, booleans,
numbers, strings, arrays and objects. Numbers are restricted to integers in
this model (Go decodes into `float64`; no claim depends on non-integer
numbers). Object fields keep their textual order. -/
inductive Json where
  | null : Json
  | bool (b : Bool) : Json
  | num (n : Int) : Json
  | str (s : String) : Json
  | arr (items : List Json) : Json
  | obj (fields : List (String × Json)) : Json

/-- Assoc-list lookup used by the object model. -/
def lookupField : List (String × Json) → String → Option Json
  | [], _ => none
  | (k, v) :: rest, key => if k = key then some v else lookupField rest key

/-- Whitespace accepted between JSON tokens. -/
def isJsonWs (c : Char) : Bool :=
  c = ' ' || c = '\n' || c = '\t' || c = '\r'

/-- Drop leading JSON whitespace. -/
def skipWs : List Char → List Char
  | [] => []
  | c :: cs => if isJsonWs c then skipWs cs else c :: cs

/-- Escape sequences accepted inside JSON string literals (models the
`encoding/json` escapes used by the tests; `\u` escapes are not modelled). -/
def escapeChar (c : Char) : Option Char :=
  if c = '"' then some '"'
  else if c = '\\' then some '\\'
  else if c = '/' then some '/'
  else if c = 'n' then some '\n'
  else if c = 't' then some '\t'
  else if c = 'r' then some '\r'
  else none

/-- Parse the body of a JSON string literal, the opening quote already
consumed. Returns the characters and the rest of the input. -/
def parseStringChars : List Char → Option (List Char × List Char)
  | [] => none
  | '"' :: cs => some ([], cs)
  | '\\' :: cs =>
    match cs with
    | [] => none
    | c :: cs' =>
      match escapeChar c with
      | none => none
      | some e =>
        match parseStringChars cs' with
        | none => none
        | some (s, rest) => some (e :: s, rest)
  | c :: cs =>
    match parseStringChars cs with
    | none => none
    | some (s, rest) => some (c :: s, rest)

/-- Take a run of decimal digits. -/
def takeDigits : List Char → List Char × List Char
  | [] => ([], [])
  | c :: cs =>
    if c.isDigit then
      let (ds, rest) := takeDigits cs
      (c :: ds, rest)
    else ([], c :: cs)

/-- Digits to a natural number. -/
def digitsToNat (ds : List Char) : Nat :=
  ds.foldl (fun acc c => acc * 10 + (c.toNat - 48)) 0

mutual

/-- Recursive-descent JSON value parser; models `encoding/json.Unmarshal`
into `any`. The `Nat` argument is recursion fuel; `jsonUnmarshal` supplies
more fuel than any input can consume. -/
def parseValue : Nat → List Char → Option (Json × List Char)
  | 0, _ => none
  | fuel + 1, input =>
    match skipWs input with
    | [] => none
    | 'n' :: 'u' :: 'l' :: 'l' :: rest => some (.null, rest)
    | 't' :: 'r' :: 'u' :: 'e' :: rest => some (.bool true, rest)
    | 'f' :: 'a' :: 'l' :: 's' :: 'e' :: rest => some (.bool false, rest)
    | '"' :: rest =>
      match parseStringChars rest with
      | none => none
      | some (s, rest') => some (.str (String.mk s), rest')
    | '[' :: rest => parseElems fuel rest
    | '\x7b' :: rest => parseFields fuel rest
    | '-' :: rest =>
      match takeDigits rest with
      | ([], _) => none
      | (ds, rest') => some (.num (-(Int.ofNat (digitsToNat ds))), rest')
    | c :: rest =>
      if c.isDigit then
        let (ds, rest') := takeDigits (c :: rest)
        some (.num (Int.ofNat (digitsToNat ds)), rest')
      else none

/-- Parse array elements after `[`, including the closing `]`. -/
def parseElems : Nat → List Char → Option (Json × List Char)
  | 0, _ => none
  | fuel + 1, input =>
    match skipWs input with
    | ']' :: rest => some (.arr [], rest)
    | other =>
      match parseValue fuel other with
      | none => none
      | some (v, rest) =>
        match skipWs rest with
        | ',' :: rest' =>
          match parseElems fuel rest' with
          | some (.arr vs, rest'') => some (.arr (v :: vs), rest'')
          | _ => none
        | ']' :: rest' => some (.arr [v], rest')
        | _ => none

/-- Parse object fields after the opening brace, including the closing one. -/
def parseFields : Nat → List Char → Option (Json × List Char)
  | 0, _ => none
  | fuel + 1, input =>
    match skipWs input with
    | '\x7d' :: rest => some (.obj [], rest)
    | '"' :: rest =>
      match parseStringChars rest with
      | none => none
      | some (k, rest') =>
        match skipWs rest' with
        | ':' :: rest'' =>
          match parseValue fuel rest'' with
          | none => none
          | some (v, rest3) =>
            match skipWs rest3 with
            | ',' :: rest4 =>
              match parseFields fuel rest4 with
              | some (.obj fs, rest5) => some (.obj ((String.mk k, v) :: fs), rest5)
              | _ => none
            | '\x7d' :: rest4 => some (.obj [(String.mk k, v)], rest4)
            | _ => none
        | _ => none
    | _ => none

end

/-- Model of `encoding/json.Unmarshal` into `any`: parse one value and demand
that only whitespace remains. -/
def jsonUnmarshal (s : String) : Option Json :=
  match parseValue (s.length + 1) s.data with
  | none => none
  | some (v, rest) => if skipWs rest = [] then some v else none

/-- Escape a character for inclusion in a rendered JSON string literal. -/
def renderStringChar (c : Char) : String :=
  if c = '"' then "\\\""
  else if c = '\\' then "\\\\"
  else if c = '\n' then "\\n"
  else if c = '\t' then "\\t"
  else if c = '\r' then "\\r"
  else String.mk [c]

/-- Render a JSON string literal with quotes. -/
def renderString (s : String) : String :=
  "\"" ++ String.join (s.data.map renderStringChar) ++ "\""

/-- Indentation used by `json.MarshalIndent(body, "", "  ")`: two spaces per
nesting level. -/
def indentStr (lvl : Nat) : String :=
  String.join (List.replicate lvl "  ")

mutual

/-- Model of `encoding/json.MarshalIndent` with empty line prefix and
two-space indent, as called by `JsonBody`. -/
def renderJson : Nat → Json → String
  | _, .null => "null"
  | _, .bool true => "true"
  | _, .bool false => "false"
  | _, .num n => toString n
  | _, .str s => renderString s
  | _, .arr [] => "[]"
  | lvl, .arr (x :: xs) =>
    "[\n" ++ renderJsonItems (lvl + 1) (x :: xs) ++ "\n" ++ indentStr lvl ++ "]"
  | _, .obj [] => "\x7b\x7d"
  | lvl, .obj (f :: fs) =>
    "\x7b\n" ++ renderJsonFields (lvl + 1) (f :: fs) ++ "\n" ++ indentStr lvl ++ "\x7d"

/-- Render array items, one per line, comma separated. -/
def renderJsonItems : Nat → List Json → String
  | _, [] => ""
  | lvl, [x] => indentStr lvl ++ renderJson lvl x
  | lvl, x :: x' :: xs =>
    indentStr lvl ++ renderJson lvl x ++ ",\n" ++ renderJsonItems lvl (x' :: xs)

/-- Render object fields, one per line, comma separated. -/
def renderJsonFields : Nat → List (String × Json) → String
  | _, [] => ""
  | lvl, [(k, v)] => indentStr lvl ++ renderString k ++ ": " ++ renderJson lvl v
  | lvl, (k, v) :: f :: fs =>
    indentStr lvl ++ renderString k ++ ": " ++ renderJson lvl v ++ ",\n"
      ++ renderJsonFields lvl (f :: fs)

end

mutual

/-- Model of `fmt`'s `%v` rendering of a decoded JSON value, as used by
`format` in `assert.go` (strings print bare, slices as `[a b]`, maps as
`map[k:v]`, `nil` as `<nil>`). -/
def showData : Json → String
  | .null => "<nil>"
  | .bool true => "true"
  | .bool false => "false"
  | .num n => toString n
  | .str s => s
  | .arr xs => "[" ++ showDataList xs ++ "]"
  | .obj fs => "map[" ++ showDataFields fs ++ "]"

/-- Space-separated `%v` items of a slice. -/
def showDataList : List Json → String
  | [] => ""
  | [x] => showData x
  | x :: x' :: xs => showData x ++ " " ++ showDataList (x' :: xs)

/-- Space-separated `k:v` entries of a map. -/
def showDataFields : List (String × Json) → String
  | [] => ""
  | [(k, v)] => k ++ ":" ++ showData v
  | (k, v) :: f :: fs => k ++ ":" ++ showData v ++ " " ++ showDataFields (f :: fs)

end

mutual

/-- Model of `reflect.DeepEqual` restricted to decoded JSON values, as used
by `equals` in `assert.go`. Object fields are compared in order; the parser
model produces fields in textual order, so this coincides with map equality
on its outputs whenever keys are unique. -/
def jsonDeepEqual : Json → Json → Bool
  | .null, .null => true
  | .bool a, .bool b => a = b
  | .num a, .num b => a = b
  | .str a, .str b => a = b
  | .arr a, .arr b => jsonListEqual a b
  | .obj a, .obj b => jsonFieldsEqual a b
  | _, _ => false

/-- Elementwise deep equality of JSON arrays. -/
def jsonListEqual : List Json → List Json → Bool
  | [], [] => true
  | x :: xs, y :: ys => jsonDeepEqual x y && jsonListEqual xs ys
  | _, _ => false

/-- Entrywise deep equality of JSON object fields. -/
def jsonFieldsEqual : List (String × Json) → List (String × Json) → Bool
  | [], [] => true
  | (k, v) :: xs, (l, w) :: ys => k = l && jsonDeepEqual v w && jsonFieldsEqual xs ys
  | _, _ => false

end

instance : BEq Json := ⟨jsonDeepEqual⟩

/-- One step of a compiled JSONPath expression: a `.name` field selector or a
`[i]` index selector. -/
inductive PathStep where
  | field (name : String) : PathStep
  | index (i : Nat) : PathStep

/-- A compiled JSONPath expression, as produced by
`gval.Full(jsonpath.PlaceholderExtension()).NewEvaluable`: the root `$`
followed by selector steps. Well-formed step lists always compile, so the
`NewEvaluable` error branch of the source is unreachable in this model. -/
def Path := List PathStep

/-- Textual form of a path step. -/
def showStep : PathStep → String
  | .field name => "." ++ name
  | .index i => "[" ++ toString i ++ "]"

/-- Textual form of a path, e.g. `$[0].name`; models `fmt`'s rendering of the
path expression string in failure output. -/
def showPath (p : Path) : String :=
  "$" ++ String.join (p.map showStep)

/-- Model of evaluating one JSONPath selector with the `gval`/`jsonpath`
evaluator: a missing key, an out-of-range index or a selector applied to a
value of the wrong shape is an evaluation error (the library's not-found
condition, e.g. `unknown key foo`). -/
def evalStep (s : PathStep) (d : Json) : Except String Json :=
  match s, d with
  | .field name, .obj fields =>
    match lookupField fields name with
    | some v => .ok v
    | none => .error ("unknown key " ++ name)
  | .field name, _ => .error ("unknown key " ++ name)
  | .index i, .arr xs =>
    match xs.get? i with
    | some v => .ok v
    | none => .error ("index " ++ toString i ++ " out of bounds")
  | .index i, _ => .error ("index " ++ toString i ++ " out of bounds")

/-- Model of the external JSONPath evaluator applied to a decoded document:
selectors run left to right; the first failing selector yields the
evaluator's error. -/
def evalPath (p : Path) (d : Json) : Except String Json :=
  match p with
  | [] => .ok d
  | s :: rest =>
    match evalStep s d with
    | .ok v => evalPath rest v
    | .error e => .error e

/-- Model of `strings.Join(out, "\n")` as used by `fatal`. -/
def joinLines : List String → String
  | [] => ""
  | [m] => m
  | m :: m' :: rest => m ++ "\n" ++ joinLines (m' :: rest)

/-- Embeds `fatal` from `assert.go`: the failure and every extra argument are
`%v`-formatted and joined with newlines into the single message passed to
`t.Fatal`. Arguments here are already formatted strings; `Except.error` of
this message models the `t.Fatal` call. -/
def fatal (failure : String) (extra : List String) : String :=
  joinLines (failure :: extra)

/-- Embeds `MustParseJson` from `json.go` (src/unnamed/part_000 lines 83-98)
at `T = any`: read all input (readers are modelled by the string they
yield), fail fatally on empty input, otherwise `json.Unmarshal` it. The
error text of a failed unmarshal comes from `encoding/json` and is modelled
by a fixed string. -/
def MustParseJson (input : String) (extra : List String) : Except String Json :=
  if input.length = 0 then
    .error (fatal "cannot JSON parse an empty string" extra)
  else
    match jsonUnmarshal input with
    | some out => .ok out
    | none => .error (fatal "invalid JSON input" extra)

/-- Embeds `DataContains` from `json.go` (src/unnamed/part_000 lines 47-59):
compile the path (always succeeds for a well-formed `Path`, so the first
`must` never fires), evaluate it against the parsed data, and fatal with
`failed to capture JSON path` when evaluation errors. The source does not
forward `extra` into this failure message. -/
def DataContains (data : Json) (pathexpr : Path) (extra : List String) :
    Except String Json :=
  let _ := extra
  match evalPath pathexpr data with
  | .ok captured => .ok captured
  | .error err =>
    .error (fatal err
      ["failed to capture JSON path", showPath pathexpr, "full data", showData data])

/-- Embeds `JsonContains` from `json.go` (src/unnamed/part_000 lines 36-42):
parse the document, then `DataContains`. -/
def JsonContains (data : String) (pathexpr : Path) (extra : List String) :
    Except String Json :=
  match MustParseJson data extra with
  | .error e => .error e
  | .ok body => DataContains body pathexpr extra

/-- Embeds `JsonContainsStr` from `json.go` (src/unnamed/part_000 lines
16-30): `JsonContains`, then a fatal type-mismatch failure when the captured
value is not a string. -/
def JsonContainsStr (data : String) (pathexpr : Path) (extra : List String) :
    Except String String :=
  match JsonContains data pathexpr extra with
  | .error e => .error e
  | .ok captured =>
    match captured with
    | .str capturedStr => .ok capturedStr
    | v =>
      .error (fatal "jsonpath does not resolve to a string value"
        (["path", showPath pathexpr, "val", showData v, "full data", data] ++ extra))

/-- Embeds `JsonNotContains` from `json.go` (src/unnamed/part_000 lines
63-79): compile the path, parse the document, evaluate; a successful match is
a fatal failure reporting the matched value, an evaluation error is silent
success. The Go function then returns the zero-value `captured` (`nil`),
modelled by `Json.null`. -/
def JsonNotContains (data : String) (pathexpr : Path) (extra : List String) :
    Except String Json :=
  match MustParseJson data extra with
  | .error e => .error e
  | .ok body =>
    match evalPath pathexpr body with
    | .ok captured =>
      .error (fatal "did not expect JSON path to exist"
        ["path", showPath pathexpr, "matched", showData captured])
    | .error _ => .ok Json.null

/-- Model of `net/textproto`'s token characters (valid header field bytes):
digits, letters and the RFC 7230 token specials, identified by code point. -/
def isTokenChar (c : Char) : Bool :=
  let n := c.toNat
  (48 ≤ n && n ≤ 57) || (65 ≤ n && n ≤ 90) || (97 ≤ n && n ≤ 122) ||
    n = 33 || n = 35 || n = 36 || n = 37 || n = 38 || n = 39 || n = 42 ||
    n = 43 || n = 45 || n = 46 || n = 94 || n = 95 || n = 96 || n = 124 || n = 126

/-- Case-fold a header key: uppercase the first letter and every letter that
follows a hyphen, lowercase the rest. The `Bool` tracks whether the next
letter starts a word. -/
def canonicalChars : Bool → List Char → List Char
  | _, [] => []
  | upper, c :: cs =>
    let c' := if upper then c.toUpper else c.toLower
    c' :: canonicalChars (c' = '-') cs

/-- Model of `textproto.CanonicalMIMEHeaderKey` as used by `http.Header.Set`
and `http.Header.Get`: keys with invalid characters are returned unchanged,
others are canonically cased. -/
def canonicalMIMEHeaderKey (s : String) : String :=
  if s.data.all isTokenChar then String.mk (canonicalChars true s.data) else s

/-- Replace the value stored under a key, or append the pair when absent;
the assoc-list model of writing to the `map[string][]string` behind
`http.Header` (`Set` stores a single value). -/
def setAssoc : List (String × String) → String → String → List (String × String)
  | [], key, val => [(key, val)]
  | (k, v) :: rest, key, val =>
    if k = key then (key, val) :: rest else (k, v) :: setAssoc rest key val

/-- Look a key up in the assoc-list header model. -/
def lookupAssoc : List (String × String) → String → Option String
  | [], _ => none
  | (k, v) :: rest, key => if k = key then some v else lookupAssoc rest key

/-- Model of `http.Header.Set`: canonicalize the key, replace the entry. -/
def headerSet (h : List (String × String)) (name val : String) :
    List (String × String) :=
  setAssoc h (canonicalMIMEHeaderKey name) val

/-- Model of `http.Header.Get`: canonicalize the key, return the stored
value, or the empty string when the header is absent. -/
def headerGet (h : List (String × String)) (name : String) : String :=
  match lookupAssoc h (canonicalMIMEHeaderKey name) with
  | some v => v
  | none => ""

/-- Model of `fmt.Sprintf` over the characters of the format string,
restricted to the `%s`/`%v` string verbs this package's tests use: `%%` is a
literal percent, a string verb consumes the next argument (annotating a
missing one), any other verb is annotated, and leftover arguments are
appended as an `EXTRA` annotation. -/
def sprintfAux : List Char → List String → List Char
  | [], [] => []
  | [], a :: as =>
    ("%!(EXTRA " ++ String.intercalate ", " (a :: as) ++ ")").data
  | '%' :: '%' :: rest, args => '%' :: sprintfAux rest args
  | '%' :: c :: rest, args =>
    if c = 's' || c = 'v' then
      match args with
      | a :: as => a.data ++ sprintfAux rest as
      | [] => ("%!" ++ String.mk [c] ++ "(MISSING)").data ++ sprintfAux rest []
    else ("%!" ++ String.mk [c] ++ "(NOVERB)").data ++ sprintfAux rest args
  | c :: rest, args => c :: sprintfAux rest args

/-- Model of `fmt.Sprintf` on strings. -/
def sprintf (format : String) (args : List String) : String :=
  String.mk (sprintfAux format.data args)

/-- The dynamically typed `body any` argument of `JsonBody`: a Go string, an
`io.Reader` (modelled by the bytes it would yield; a `*strings.Reader` has no
exported fields, so `encoding/json` marshals the reader value itself to an
empty object), or any other JSON-marshalable value. -/
inductive GoValue where
  | str (s : String) : GoValue
  | reader (content : String) : GoValue
  | val (j : Json) : GoValue

/-- Model of `json.MarshalIndent(body, "", "  ")` on a `GoValue`. A reader
marshals to `"\x7b\x7d"` (no exported fields); a Go string marshals to a JSON
string literal (this branch is unreachable from `JsonBody`). -/
def marshalIndent : GoValue → String
  | .str s => renderString s
  | .reader _ => "\x7b\x7d"
  | .val j => renderJson 0 j

/-- Embeds the body-string computation of `JsonBody` (src/unnamed/part_003
lines 111-128), statement by statement: `var bodyStr string`; if the body is
a reader, read it fully into `bodyStr`; then the two-value type assertion
`bodyStr, isStr = body.(string)` assigns `bodyStr` again, with the zero value
`""` whenever the body is not a string — discarding any reader content just
read; finally a non-string body is marshalled to indented JSON. -/
def jsonBodyString (body : GoValue) : String :=
  let bodyStr : String := ""
  let bodyStr : String :=
    match body with
    | .reader content => content
    | _ => bodyStr
  let assertion : String × Bool :=
    match body with
    | .str s => (s, true)
    | _ => ("", false)
  let bodyStr : String := assertion.1
  let isStr : Bool := assertion.2
  if !isStr then marshalIndent body else bodyStr

/-- The `*http.Request` fields this package touches: method, URL (kept as
its textual form), header map and body bytes. -/
structure GoHttpRequest where
  method : String
  url : String
  headers : List (String × String)
  body : Option String

/-- One part written into the multipart form: `CreateFormField` + `Write`,
or `CreateFormFile` + `io.Copy` (the copied reader modelled by its bytes). -/
inductive MultipartPart where
  | formField (name : String) (val : String) : MultipartPart
  | formFile (fieldname filename : String) (data : String) : MultipartPart

/-- Embeds `HttpTesterRequest` (src/unnamed/part_003 lines 241-248): the
underlying request, the done flag, the construction-site stack captured by
`debug.Stack()` (an external runtime value, carried as a string), and the
lazily created multipart writer, modelled by the list of parts written so far
(`multipartFormBuffer` holds exactly the encoding of those parts). -/
structure HttpTesterRequest where
  request : GoHttpRequest
  done : Bool
  stack : String
  multipartForm : Option (List MultipartPart)

/-- The closed set of request options the package exposes (each is a
`RequestOption` closure in the source; `Bearer` is `Header` applied to the
authorization header, see `Bearer` below). -/
inductive RequestOption where
  | Header (name val : String) : RequestOption
  | JsonBody (body : GoValue) (args : List String) : RequestOption
  | MultipartFormField (name : String) (val : String) : RequestOption
  | MultipartFormFile (fieldname filename : String) (data : String) : RequestOption

/-- Embeds `Bearer` (src/unnamed/part_003 lines 94-96): a `Header` option for
the standard bearer authorization header. -/
def Bearer (token : String) : RequestOption :=
  .Header "Authorization" (sprintf "Bearer %s" [token])

/-- The parts already written to a request's multipart writer; `multipart()`
(src/unnamed/part_003 lines 282-289) lazily creates the writer on first use,
so an absent writer behaves as an empty part list. -/
def multipartParts (req : HttpTesterRequest) : List MultipartPart :=
  match req.multipartForm with
  | some parts => parts
  | none => []

/-- Embeds applying one `RequestOption` closure to a request
(src/unnamed/part_003): `Header` sets a header; `JsonBody` sets the JSON
content type and the formatted body string; the multipart options append a
part through the lazily initialized writer. The `must` calls inside the
multipart options guard writer errors that cannot occur in this pure model. -/
def applyOption (opt : RequestOption) (req : HttpTesterRequest) : HttpTesterRequest :=
  match opt with
  | .Header name val =>
    { req with request := { req.request with headers := headerSet req.request.headers name val } }
  | .JsonBody body args =>
    { req with request :=
      { req.request with
          headers := headerSet req.request.headers "Content-Type" "application/json",
          body := some (sprintf (jsonBodyString body) args) } }
  | .MultipartFormField name val =>
    { req with multipartForm := some (multipartParts req ++ [.formField name val]) }
  | .MultipartFormFile fieldname filename data =>
    { req with multipartForm := some (multipartParts req ++ [.formFile fieldname filename data]) }

/-- Embeds the option loop of `Request`: `for _, opt := range options`. -/
def applyOptions (options : List RequestOption) (req : HttpTesterRequest) :
    HttpTesterRequest :=
  options.foldl (fun r opt => applyOption opt r) req

/-- Does the option write to the multipart form? -/
def isMultipartOption : RequestOption → Bool
  | .MultipartFormField _ _ => true
  | .MultipartFormFile _ _ _ => true
  | _ => false

/-- Model of Go's `net/http` method validation (`validMethod`): non-empty
and made of token characters. -/
def validMethod (m : String) : Bool :=
  m.length > 0 && m.data.all isTokenChar

/-- Model of `net/url.Parse` success on the request target: `url.Parse`
rejects ASCII control characters; everything else in this package's relative
paths parses. -/
def urlParseOk (s : String) : Bool :=
  s.data.all (fun c => 32 ≤ c.toNat && c.toNat ≠ 127)

/-- Model of `http.NewRequest(method, path, nil)`: an empty method defaults
to GET, an invalid method or unparsable URL is an error (`none`), otherwise
a request with an empty header map and no body. -/
def httpNewRequest (method path : String) : Option GoHttpRequest :=
  let method := if method = "" then "GET" else method
  if validMethod method then
    if urlParseOk path then
      some { method := method, url := path, headers := [], body := none }
    else none
  else none

/-- Embeds the `HttpTester` session state: the pending requests registered so
far. The wrapped `t`, server and client are external capabilities; the
cleanup closure registered by `New` is embedded as `cleanupFailures`. -/
structure HttpTester where
  requests : List HttpTesterRequest

/-- Embeds `New` (src/unnamed/part_003 lines 50-67): a fresh session with no
pending requests. The cleanup callback it registers with `t.Cleanup` is the
teardown scan `cleanupFailures`. -/
def New : HttpTester :=
  { requests := [] }

/-- Embeds the cleanup closure registered by `New` (src/unnamed/part_003
lines 58-64): at teardown, every registered request not marked done is
reported as a fatal failure naming the construction-site stack. The messages
are collected in registration order (with `testing.T`, the first `Fatal`
already stops the run; a request marked done is never reported either way). -/
def cleanupFailures (requests : List HttpTesterRequest) : List String :=
  requests.filterMap fun req =>
    if req.done then none
    else some (fatal ("forgot to execute Test on test request at:\n" ++ req.stack ++ "\n") [])

/-- Embeds `Request` (src/unnamed/part_003 lines 74-91): build the underlying
request (fatal on `http.NewRequest` error), record the construction-site
stack, register the pending request with the session and apply the options.
The source appends the request before running the options over the shared
pointer; the registered request therefore carries the applied options, which
is what this pure version constructs. -/
def Request (h : HttpTester) (method path : String) (stack : String)
    (options : List RequestOption) : Except String (HttpTester × HttpTesterRequest) :=
  match httpNewRequest method path with
  | none => .error (fatal "net/http: invalid method or URL" [])
  | some req =>
    let request : HttpTesterRequest :=
      { request := req, done := false, stack := stack, multipartForm := none }
    let request := applyOptions options request
    .ok ({ requests := h.requests ++ [request] }, request)

/-- The boundary the multipart writer would generate; `multipart.NewWriter`
draws it from a random source, an external effect modelled by a constant. -/
def modelBoundary : String :=
  "f9a8b7c6d5e4f9a8b7c6d5e4f9a8b7"

/-- Model of encoding one part written to `multipart.Writer`. -/
def encodePart (boundary : String) : MultipartPart → String
  | .formField name val =>
    "--" ++ boundary ++ "\r\nContent-Disposition: form-data; name=\"" ++ name
      ++ "\"\r\n\r\n" ++ val ++ "\r\n"
  | .formFile fieldname filename data =>
    "--" ++ boundary ++ "\r\nContent-Disposition: form-data; name=\"" ++ fieldname
      ++ "\"; filename=\"" ++ filename
      ++ "\"\r\nContent-Type: application/octet-stream\r\n\r\n" ++ data ++ "\r\n"

/-- Model of the bytes buffered by the multipart writer once `Close` has
appended the terminating boundary: the finalized multipart payload. -/
def multipartEncode (parts : List MultipartPart) : String :=
  String.join (parts.map (encodePart modelBoundary)) ++ "--" ++ modelBoundary ++ "--\r\n"

/-- Model of `multipart.Writer.FormDataContentType`: the boundary-bearing
multipart content type. -/
def formDataContentType : String :=
  "multipart/form-data; boundary=" ++ modelBoundary

/-- Embeds `finalise` (src/unnamed/part_003 lines 291-303): without a
multipart writer the request is returned as is; otherwise the writer is
closed, its buffered bytes become the body and the content type is set to
the writer's boundary-bearing multipart type — overriding any directly set
body and content type. -/
def finalise (req : HttpTesterRequest) : HttpTesterRequest :=
  match req.multipartForm with
  | none => req
  | some parts =>
    { req with request :=
      { req.request with
          body := some (multipartEncode parts),
          headers := headerSet req.request.headers "Content-Type" formDataContentType } }

/-- Embeds `equals` from `assert.go`: deep-equality (via `eq`, a model of
`reflect.DeepEqual` at the compared type) or a fatal failure showing the
`%v`-formatted (via `fmt`) expected and actual values plus the extras. -/
def equals (fmt : α → String) (eq : α → α → Bool) (expected actual : α)
    (extra : List String) : Except String Unit :=
  if eq expected actual then .ok ()
  else
    .error (fatal "values are not equal"
      (["expected", fmt expected, "actual", fmt actual] ++ extra))

/-- Model of `strings.Index(body, content) >= 0`: substring containment. -/
def strContainsAt : List Char → List Char → Bool
  | _, [] => true
  | [], _ :: _ => false
  | c :: cs, d :: ds => (c = d && strContainsAt cs ds) || false

/-- Does `sub` occur contiguously inside `body`? -/
def strContains (body sub : List Char) : Bool :=
  match body with
  | [] => sub.isEmpty
  | _ :: rest => strContainsAt body sub || strContains rest sub

/-- The closed set of response checks registered through `addExpectation` by
the `ExpectXXX` response options (src/unnamed/part_003 lines 156-227); each
is a `responseExpectation` closure over `(response, body, extra)`. -/
inductive ResponseCheck where
  | ExpectCode (code : Nat) : ResponseCheck
  | ExpectBodyContains (content : String) : ResponseCheck
  | ExpectContentType (contentType : String) : ResponseCheck
  | ExpectJsonExists (path : Path) : ResponseCheck
  | ExpectJsonMatchStr (path : Path) (m : String) : ResponseCheck
  | ExpectJsonMatch (path : Path) (m : Json) : ResponseCheck

/-- The response data a check can observe: status code and header map (the
`*http.Response` fields used) and the body snapshot string. -/
structure HttpResponse where
  statusCode : Nat
  headers : List (String × String)
  body : String

/-- Embeds `HttpExpectation` (src/unnamed/part_003 lines 272-276): the
ordered response checks and the named JSON captures. The source keeps
captures in a Go map with unique keys; the model keeps them as a list in
insertion order. -/
structure HttpExpectation where
  responseExpectations : List ResponseCheck
  jsonCaptures : List (String × Path)

/-- Embeds `Expect` (src/unnamed/part_003 lines 251-263): fold the response
options into an empty expectation. Each `ExpectXXX` option appends a check;
`CaptureJson name path` stores a capture under `name`. -/
inductive ResponseOption where
  | Check (c : ResponseCheck) : ResponseOption
  | CaptureJson (name : String) (path : Path) : ResponseOption

/-- Apply one `ResponseOption` closure to an expectation: `addExpectation`
appends to the check list; `CaptureJson` writes the capture map. -/
def applyResponseOption (opt : ResponseOption) (e : HttpExpectation) : HttpExpectation :=
  match opt with
  | .Check c => { e with responseExpectations := e.responseExpectations ++ [c] }
  | .CaptureJson name path => { e with jsonCaptures := e.jsonCaptures ++ [(name, path)] }

/-- Embeds `Expect`: a fresh expectation with the options applied in order. -/
def Expect (options : List ResponseOption) : HttpExpectation :=
  options.foldl (fun e opt => applyResponseOption opt e) { responseExpectations := [], jsonCaptures := [] }

/-- Embeds running one registered `responseExpectation` closure
(src/unnamed/part_003 lines 156-227) against the shared response snapshot. -/
def runCheck (response : HttpResponse) (body : String) (extra : List String) :
    ResponseCheck → Except String Unit
  | .ExpectCode code =>
    equals (fun n => toString n) (fun a b => a = b) code response.statusCode extra
  | .ExpectBodyContains content =>
    if strContains body.data content.data then .ok ()
    else
      .error (fatal "body contains failed" (["contains", content, "body", body] ++ extra))
  | .ExpectContentType contentType =>
    equals (fun s => s) (fun a b => a = b) contentType
      (headerGet response.headers "Content-Type") extra
  | .ExpectJsonExists path =>
    match JsonContainsStr body path extra with
    | .ok _ => .ok ()
    | .error e => .error e
  | .ExpectJsonMatchStr path m =>
    let extra := ("json path: " ++ showPath path) :: extra
    match JsonContainsStr body path extra with
    | .ok s => equals (fun x => x) (fun a b => a = b) m s extra
    | .error e => .error e
  | .ExpectJsonMatch path m =>
    let extra := ("json path: " ++ showPath path) :: extra
    match JsonContains body path extra with
    | .ok v => equals showData jsonDeepEqual m v extra
    | .error e => .error e

/-- Embeds the check loop of `Test`: every check runs against the shared
snapshot; a fatal check stops the test (fail-fast `t.Fatal` semantics). -/
def runChecks (response : HttpResponse) (body : String) (extra : List String) :
    List ResponseCheck → Except String Unit
  | [] => .ok ()
  | c :: rest =>
    match runCheck response body extra c with
    | .ok () => runChecks response body extra rest
    | .error e => .error e

/-- Embeds the capture loop of `Test`: each named capture resolves its JSON
path as a string via `JsonContainsStr`, fatally failing the test when the
path does not resolve to a string. -/
def runCaptures (body : String) (extra : List String) :
    List (String × Path) → Except String (List (String × String))
  | [] => .ok []
  | (name, expr) :: rest =>
    match JsonContainsStr body expr extra with
    | .error e => .error e
    | .ok v =>
      match runCaptures body extra rest with
      | .error e => .error e
      | .ok vs => .ok ((name, v) :: vs)

/-- Embeds the package variable `MaxReqRespOutput` (src/unnamed/part_003
lines 305-307) at its default value: the maximum amount of request or
response output printed when reporting failures. -/
def MaxReqRespOutput : Nat := 1200

/-- Embeds the dump truncation in `Test` (src/unnamed/part_003 lines 325-326
and 342-343): `l, _ := fbrmath.Min(maxLen, len(data))` followed by the slice
`data[0:l]`. -/
def truncOutput (maxLen : Nat) (data : String) : String :=
  String.mk (data.data.take (min maxLen data.length))

/-- Model of `httputil.DumpRequest(r, true)`: request line, headers, body. -/
def DumpRequest (r : GoHttpRequest) : String :=
  r.method ++ " " ++ r.url ++ " HTTP/1.1\r\n"
    ++ String.join (r.headers.map (fun kv => kv.1 ++ ": " ++ kv.2 ++ "\r\n"))
    ++ "\r\n"
    ++ (match r.body with | some b => b | none => "")

/-- Model of `httputil.DumpResponse(resp, true)`: status line, headers,
body. -/
def DumpResponse (resp : HttpResponse) : String :=
  "HTTP/1.1 " ++ toString resp.statusCode ++ "\r\n"
    ++ String.join (resp.headers.map (fun kv => kv.1 ++ ": " ++ kv.2 ++ "\r\n"))
    ++ "\r\n" ++ resp.body

/-- Model of `r.URL.Parse(srv.URL + r.URL.String())`: resolve the relative
target against the test server's base URL, failing on an unparsable result. -/
def resolveURL (baseURL target : String) : Except String String :=
  if urlParseOk (baseURL ++ target) then .ok (baseURL ++ target)
  else .error "net/url: parse error"

/-- Embeds `Test` (src/unnamed/part_003 lines 311-359). The HTTP transport
(`tester.client.Do` plus the `io.ReadAll` of the response body) is an
external capability passed as `transport`; its error covers both transport
and body-read failures. In order: mark the request done, finalise it (the
source mutates the stored request, so the first component is the stored
state teardown later observes), resolve the URL, attach the truncated
request dump to the extras, send, snapshot the body, attach the truncated
response dump, run every check, then compute the captures. -/
def Test (transport : GoHttpRequest → Except String HttpResponse)
    (baseURL : String) (expectation : HttpExpectation) (req : HttpTesterRequest)
    (extra : List String) :
    HttpTesterRequest × Except String (List (String × String)) :=
  let stored := finalise { req with done := true }
  let r := stored.request
  (stored,
    match resolveURL baseURL r.url with
    | .error e => .error (fatal e extra)
    | .ok url =>
      let r := { r with url := url }
      let extra := extra ++ ["HTTP request:", truncOutput MaxReqRespOutput (DumpRequest r)]
      match transport r with
      | .error e => .error (fatal e extra)
      | .ok resp =>
        let bodyStr := resp.body
        let extra := extra ++ ["HTTP response:", truncOutput MaxReqRespOutput (DumpResponse resp)]
        match runChecks resp bodyStr extra expectation.responseExpectations with
        | .error e => .error e
        | .ok () => runCaptures bodyStr extra expectation.jsonCaptures)

/-! ## Helper lemmas -/

theorem setAssoc_setAssoc_same (h : List (String × String)) (k v1 v2 : String) :
    setAssoc (setAssoc h k v1) k v2 = setAssoc h k v2 := by
  induction h with
  | nil => simp [setAssoc]
  | cons kv rest ih =>
    obtain ⟨k', v'⟩ := kv
    by_cases hk : k' = k
    · simp [setAssoc, hk]
    · simp [setAssoc, hk, ih]

theorem lookupAssoc_setAssoc_same (h : List (String × String)) (k v : String) :
    lookupAssoc (setAssoc h k v) k = some v := by
  induction h with
  | nil => simp [setAssoc, lookupAssoc]
  | cons kv rest ih =>
    obtain ⟨k', v'⟩ := kv
    by_cases hk : k' = k
    · simp [setAssoc, lookupAssoc, hk]
    · simp [setAssoc, lookupAssoc, hk, ih]

theorem applyOption_done (opt : RequestOption) (req : HttpTesterRequest) :
    (applyOption opt req).done = req.done := by
  cases opt <;> rfl

theorem applyOption_stack (opt : RequestOption) (req : HttpTesterRequest) :
    (applyOption opt req).stack = req.stack := by
  cases opt <;> rfl

theorem applyOptions_cons (opt : RequestOption) (rest : List RequestOption)
    (req : HttpTesterRequest) :
    applyOptions (opt :: rest) req = applyOptions rest (applyOption opt req) := rfl

theorem applyOptions_done (opts : List RequestOption) (req : HttpTesterRequest) :
    (applyOptions opts req).done = req.done := by
  induction opts generalizing req with
  | nil => rfl
  | cons opt rest ih => rw [applyOptions_cons, ih, applyOption_done]

theorem applyOptions_stack (opts : List RequestOption) (req : HttpTesterRequest) :
    (applyOptions opts req).stack = req.stack := by
  induction opts generalizing req with
  | nil => rfl
  | cons opt rest ih => rw [applyOptions_cons, ih, applyOption_stack]

theorem applyOption_multipart_mono (opt : RequestOption) (req : HttpTesterRequest)
    (h : req.multipartForm.isSome = true) :
    ((applyOption opt req).multipartForm).isSome = true := by
  cases opt with
  | Header name val => simpa [applyOption] using h
  | JsonBody body args => simpa [applyOption] using h
  | MultipartFormField name val => simp [applyOption]
  | MultipartFormFile fieldname filename data => simp [applyOption]

theorem applyOptions_multipart_mono (opts : List RequestOption) (req : HttpTesterRequest)
    (h : req.multipartForm.isSome = true) :
    ((applyOptions opts req).multipartForm).isSome = true := by
  induction opts generalizing req with
  | nil => exact h
  | cons opt rest ih =>
    rw [applyOptions_cons]
    exact ih _ (applyOption_multipart_mono opt req h)

theorem applyOptions_multipart_some (opts : List RequestOption) (req : HttpTesterRequest)
    (h : opts.any isMultipartOption = true) :
    ((applyOptions opts req).multipartForm).isSome = true := by
  induction opts generalizing req with
  | nil => simp at h
  | cons opt rest ih =>
    rw [applyOptions_cons]
    by_cases ho : isMultipartOption opt = true
    · refine applyOptions_multipart_mono rest _ ?_
      cases opt with
      | Header name val => simp [isMultipartOption] at ho
      | JsonBody body args => simp [isMultipartOption] at ho
      | MultipartFormField name val => simp [applyOption]
      | MultipartFormFile fieldname filename data => simp [applyOption]
    · have hrest : rest.any isMultipartOption = true := by
        simpa [List.any_cons, ho] using h
      exact ih _ hrest

theorem finalise_done (req : HttpTesterRequest) :
    (finalise req).done = req.done := by
  unfold finalise
  cases hm : req.multipartForm <;> simp

/-! ## Claim theorems -/

/-- Claim C6: applying the `Header` option twice with the same name leaves
the request exactly as if only the second application had happened
(last write wins), and the header map then holds the second value; the first
value is not observable in the outgoing request. -/
theorem header_set_last_write_wins (req : HttpTesterRequest) (name v1 v2 : String) :
    applyOption (.Header name v2) (applyOption (.Header name v1) req)
      = applyOption (.Header name v2) req
  ∧ headerGet (applyOption (.Header name v2)
      (applyOption (.Header name v1) req)).request.headers name = v2 := by
  obtain ⟨r, d, s, m⟩ := req
  obtain ⟨me, u, hs, b⟩ := r
  constructor
  · simp [applyOption, headerSet, setAssoc_setAssoc_same]
  · simp [applyOption, headerGet, headerSet, lookupAssoc_setAssoc_same]

/-- Claim C8: `MustParseJson` on an input whose content is the empty string
(zero bytes) reports the parse failure `cannot JSON parse an empty string`
and never decodes the input to any value. -/
theorem mustParseJson_empty_always_fails :
    MustParseJson "" [] = .error "cannot JSON parse an empty string"
  ∧ ∀ j : Json, MustParseJson "" [] ≠ Except.ok j := by
  refine ⟨rfl, ?_⟩
  intro j h
  rw [show MustParseJson "" []
      = Except.error "cannot JSON parse an empty string" from rfl] at h
  exact Except.noConfusion h

/-- Claim C2 (failing input): `JsonBody` applied to a reader that would
yield the bytes `hello` does not install those bytes as the request body.
The two-value type assertion `bodyStr, isStr = body.(string)` overwrites the
just-read content with the zero value, so the body becomes the indented JSON
marshal of the reader value itself (an empty object), contradicting both the
claim and the function's own doc comment; the JSON content type is still
set. -/
theorem jsonBody_reader_marshals_reader_value (req : HttpTesterRequest) :
    (applyOption (RequestOption.JsonBody (GoValue.reader "hello") []) req).request.body
      = some "\x7b\x7d"
  ∧ headerGet (applyOption (RequestOption.JsonBody (GoValue.reader "hello") [])
      req).request.headers "Content-Type" = "application/json"
  ∧ ("\x7b\x7d" : String) ≠ "hello" := by
  refine ⟨?_, ?_, by decide⟩
  · show some (sprintf (jsonBodyString (GoValue.reader "hello")) []) = some "\x7b\x7d"
    rfl
  · show headerGet (headerSet req.request.headers "Content-Type" "application/json")
        "Content-Type" = "application/json"
    unfold headerGet headerSet
    rw [lookupAssoc_setAssoc_same]

/-- Claim C7 (failing input): the `ExpectJsonExists` check passes on a
response body whose JSON path resolves to the empty string, although the
check's doc comment (and the claim) require a non-empty string value:
`JsonContainsStr` only tests that the resolved value is a string. -/
theorem expectJsonExists_accepts_empty_string :
    runCheck ⟨200, [], "\x7b\"a\":\"\"\x7d"⟩ "\x7b\"a\":\"\"\x7d" []
      (ResponseCheck.ExpectJsonExists [PathStep.field "a"]) = .ok ()
  ∧ JsonContainsStr "\x7b\"a\":\"\"\x7d" [PathStep.field "a"] [] = .ok "" := by
  exact ⟨rfl, rfl⟩

/-- Claim C9: the diagnostic dump truncation used by `Test` caps any dump at
the configured maximum length, attaches a shorter dump in full, and the
default `MaxReqRespOutput` is 1200. -/
theorem dump_truncation_bound (maxLen : Nat) (data : String) :
    (truncOutput maxLen data).length ≤ maxLen
  ∧ (data.length ≤ maxLen → truncOutput maxLen data = data)
  ∧ MaxReqRespOutput = 1200 := by
  refine ⟨?_, ?_, rfl⟩
  · show (String.mk (data.data.take (min maxLen data.length))).length ≤ maxLen
    have hmk : (String.mk (data.data.take (min maxLen data.length))).length
        = (data.data.take (min maxLen data.length)).length := rfl
    rw [hmk, List.length_take]
    exact le_trans (Nat.min_le_left _ _) (Nat.min_le_left _ _)
  · intro h
    show String.mk (data.data.take (min maxLen data.length)) = data
    have hmin : min maxLen data.length = data.length := Nat.min_eq_right h
    rw [hmin]
    have hlen : data.length = data.data.length := rfl
    rw [hlen, List.take_length]

/-- Claim C9 witness: a concrete dump shorter than the maximum is attached
in full. -/
theorem dump_truncation_bound_witness :
    ("abc" : String).length ≤ 5 ∧ truncOutput 5 "abc" = "abc" :=
  ⟨by decide, (dump_truncation_bound 5 "abc").2.1 (by decide)⟩

/-- Claim C10: `Test` marks the request done before any step of the run that
can fail, so whatever the transport, expectation list or URL resolution do,
the stored request comes back marked done and the teardown scan reports no
lifecycle failure for it. -/
theorem test_marks_done_before_failure_paths
    (transport : GoHttpRequest → Except String HttpResponse) (baseURL : String)
    (expectation : HttpExpectation) (req : HttpTesterRequest) (extra : List String) :
    (Test transport baseURL expectation req extra).1.done = true
  ∧ cleanupFailures [(Test transport baseURL expectation req extra).1] = [] := by
  have hdone : (Test transport baseURL expectation req extra).1.done = true := by
    show (finalise { req with done := true }).done = true
    rw [finalise_done]
  refine ⟨hdone, ?_⟩
  simp [cleanupFailures, hdone]

/-- Claim C1: for every valid (method, path) pair, constructing a request
via `Request` and never running `Test` on it leaves the session's teardown
scan reporting exactly one lifecycle failure, whose message contains the
construction-site stack recorded when the request was built. -/
theorem forgotten_request_reports_one_failure (method path stack : String)
    (opts : List RequestOption) (h : (httpNewRequest method path).isSome = true) :
    ∃ tester req, Request New method path stack opts = .ok (tester, req)
      ∧ cleanupFailures tester.requests
          = ["forgot to execute Test on test request at:\n" ++ stack ++ "\n"] := by
  obtain ⟨r, hr⟩ := Option.isSome_iff_exists.mp h
  unfold Request
  rw [hr]
  refine ⟨_, _, rfl, ?_⟩
  have hdone : (applyOptions opts
      { request := r, done := false, stack := stack, multipartForm := none }).done
      = false := applyOptions_done _ _
  have hstack : (applyOptions opts
      { request := r, done := false, stack := stack, multipartForm := none }).stack
      = stack := applyOptions_stack _ _
  simp [New, cleanupFailures, hdone, hstack, fatal, joinLines]

/-- Claim C1 witness: a GET request for `/api/test` that is never executed
is reported exactly once at teardown, naming its recorded stack. -/
theorem forgotten_request_reports_one_failure_witness :
    ∃ tester req,
      Request New "GET" "/api/test" "go-httptester_test.go:10" [] = .ok (tester, req)
      ∧ cleanupFailures tester.requests
          = ["forgot to execute Test on test request at:\ngo-httptester_test.go:10\n"] :=
  forgotten_request_reports_one_failure "GET" "/api/test" "go-httptester_test.go:10" [] rfl

/-- Claim C3: for a document that parses to `d`, `JsonContainsStr` returns
exactly the string the path resolves to; resolves to a non-string value, it
reports the type-mismatch failure carrying the path, the resolved value and
the full document; and when the evaluator has no match it reports the
evaluator failure built from the evaluator's error. -/
theorem jsonContainsStr_resolution_trichotomy (D : String) (P : Path) (d : Json)
    (hD : MustParseJson D [] = .ok d) :
    (∀ S, evalPath P d = .ok (.str S) → JsonContainsStr D P [] = .ok S)
  ∧ (∀ v, evalPath P d = .ok v → (∀ s, v ≠ .str s) →
      JsonContainsStr D P [] = .error (fatal "jsonpath does not resolve to a string value"
        ["path", showPath P, "val", showData v, "full data", D]))
  ∧ (∀ e, evalPath P d = .error e →
      JsonContainsStr D P [] = .error (fatal e
        ["failed to capture JSON path", showPath P, "full data", showData d])) := by
  refine ⟨?_, ?_, ?_⟩
  · intro S hS
    simp [JsonContainsStr, JsonContains, DataContains, hD, hS]
  · intro v hv hvs
    cases v with
    | str s => exact absurd rfl (hvs s)
    | null => simp [JsonContainsStr, JsonContains, DataContains, hD, hv]
    | bool b => simp [JsonContainsStr, JsonContains, DataContains, hD, hv]
    | num n => simp [JsonContainsStr, JsonContains, DataContains, hD, hv]
    | arr items => simp [JsonContainsStr, JsonContains, DataContains, hD, hv]
    | obj fields => simp [JsonContainsStr, JsonContains, DataContains, hD, hv]
  · intro e he
    simp [JsonContainsStr, JsonContains, DataContains, hD, he]

/-- Claim C3 witness: on the README's example document, `$[0].name` resolves
to the string `Scotty` and `JsonContainsStr` returns it. -/
theorem jsonContainsStr_resolution_trichotomy_witness :
    JsonContainsStr "[\x7b\"name\":\"Scotty\"\x7d]"
      [PathStep.index 0, PathStep.field "name"] [] = .ok "Scotty" :=
  (jsonContainsStr_resolution_trichotomy "[\x7b\"name\":\"Scotty\"\x7d]"
    [PathStep.index 0, PathStep.field "name"]
    (Json.arr [Json.obj [("name", Json.str "Scotty")]]) rfl).1 "Scotty" rfl

/-- Claim C4: for a document that parses to `d`, `JsonNotContains` succeeds
silently exactly when the evaluator errors (no match for the path); when the
path does match a value, it reports a failure carrying the unexpectedly
matched value. -/
theorem jsonNotContains_silent_iff_no_match (D : String) (P : Path) (d : Json)
    (hD : MustParseJson D [] = .ok d) :
    ((∃ v, JsonNotContains D P [] = .ok v) ↔ (∃ e, evalPath P d = .error e))
  ∧ (∀ v, evalPath P d = .ok v →
      JsonNotContains D P [] = .error (fatal "did not expect JSON path to exist"
        ["path", showPath P, "matched", showData v])) := by
  cases heval : evalPath P d with
  | ok v =>
    constructor
    · constructor
      · intro hok
        obtain ⟨w, hw⟩ := hok
        rw [show JsonNotContains D P []
            = Except.error (fatal "did not expect JSON path to exist"
                ["path", showPath P, "matched", showData v]) from by
              simp [JsonNotContains, hD, heval]] at hw
        exact Except.noConfusion hw
      · intro habs
        obtain ⟨e, he⟩ := habs
        exact Except.noConfusion he
    · intro w hw
      obtain rfl : v = w := by injection hw
      simp [JsonNotContains, hD, heval]
  | error e =>
    constructor
    · constructor
      · intro _
        exact ⟨e, rfl⟩
      · intro _
        exact ⟨Json.null, by simp [JsonNotContains, hD, heval]⟩
    · intro w hw
      exact Except.noConfusion hw

/-- Claim C4 witness: the path `$.b` has no match in the document with the
single key `a`, and `JsonNotContains` succeeds silently on it. -/
theorem jsonNotContains_silent_iff_no_match_witness :
    ∃ v, JsonNotContains "\x7b\"a\":1\x7d" [PathStep.field "b"] [] = .ok v :=
  (jsonNotContains_silent_iff_no_match "\x7b\"a\":1\x7d" [PathStep.field "b"]
    (Json.obj [("a", Json.num 1)]) rfl).1.mpr ⟨"unknown key b", rfl⟩

/-- Claim C5: once any multipart option was applied, whatever the other
options (JSON/raw body before or after, headers), the finalized request's
body is the encoder's finalized multipart payload and its content type is
the encoder's boundary-bearing multipart type; a directly set body and
content type are overridden. -/
theorem multipart_payload_always_wins (req : HttpTesterRequest)
    (opts : List RequestOption) (h : opts.any isMultipartOption = true) :
    ∃ parts,
      (applyOptions opts req).multipartForm = some parts
      ∧ (finalise (applyOptions opts req)).request.body = some (multipartEncode parts)
      ∧ headerGet (finalise (applyOptions opts req)).request.headers "Content-Type"
          = formDataContentType := by
  obtain ⟨parts, hp⟩ :=
    Option.isSome_iff_exists.mp (applyOptions_multipart_some opts req h)
  refine ⟨parts, hp, ?_, ?_⟩
  · simp [finalise, hp]
  · have hfin : (finalise (applyOptions opts req)).request.headers
        = headerSet (applyOptions opts req).request.headers "Content-Type"
            formDataContentType := by
      simp [finalise, hp]
    rw [hfin]
    unfold headerGet headerSet
    rw [lookupAssoc_setAssoc_same]

/-- Claim C5 witness: a request configured with a JSON body and then a
multipart field still sends the finalized multipart payload with the
boundary-bearing content type. -/
theorem multipart_payload_always_wins_witness :
    ∃ parts,
      (applyOptions
        [RequestOption.JsonBody (GoValue.str "ignored") [],
         RequestOption.MultipartFormField "a" "b"]
        ⟨⟨"POST", "/upload", [], none⟩, false, "stk", none⟩).multipartForm = some parts
      ∧ (finalise (applyOptions
          [RequestOption.JsonBody (GoValue.str "ignored") [],
           RequestOption.MultipartFormField "a" "b"]
          ⟨⟨"POST", "/upload", [], none⟩, false, "stk", none⟩)).request.body
          = some (multipartEncode parts)
      ∧ headerGet (finalise (applyOptions
          [RequestOption.JsonBody (GoValue.str "ignored") [],
           RequestOption.MultipartFormField "a" "b"]
          ⟨⟨"POST", "/upload", [], none⟩, false, "stk", none⟩)).request.headers
          "Content-Type" = formDataContentType :=
  multipart_payload_always_wins ⟨⟨"POST", "/upload", [], none⟩, false, "stk", none⟩
    [RequestOption.JsonBody (GoValue.str "ignored") [],
     RequestOption.MultipartFormField "a" "b"] rfl

end Httptester
